import Mathlib

/-!
Verification of the result-transformation pipeline of `src/lib/resultsmodel.cpp`
(Milou results model). Each proxy-model stage of the C++ pipeline is embedded as
a pure Lean function over explicit data:

* `SortProxyModel`               → `splitWords`, `setQueryString`,
                                   `categoryHasMatchWithAllWords`, `lessThan`
* `CategoryDistributionProxyModel` → `distFilterAcceptsRow` (with loop `distLoop`)
* `HideRootLevelProxyModel`      → `hideRootAccepts` over a flattened tree
* `DuplicateDetectorProxyModel`  → `isDuplicate` (with scan loop `dupScan`)
* `ResultsModel::run/runAction/getMimeData` → `runRow`, `runActionRow`, `getMimeDataRow`

Machine integers are modelled as `Int`/`Nat` (the C++ values involved are far
below overflow range), `qreal` relevances as `ℚ`, and `QString` as `String`
(lists of characters).
-/

namespace Milou

/-! ### Category Budget Stage (`CategoryDistributionProxyModel::filterAcceptsRow`)

The C++ computes, for the category at index `i`,
`availableSpace = m_limit - itemsBefore - std::ceil(m_limit / qreal(categoryCount))`
and `maxItemsInCategory = max(1, min(availableSpace, int(std::ceil(m_limit / qreal(i + 2)))))`.
For `m_limit > 0` and positive divisors, `std::ceil` of the exact double quotient
is the ceiling division `(a + b - 1) / b`, and all intermediate values are exact
in double precision; `ceilDivNat` embeds it. -/

/-- Ceiling division on `Nat`: `⌈a / b⌉` for `b > 0`. -/
def ceilDivNat (a b : Nat) : Nat := (a + b - 1) / b

/-- One iteration of the loop body in `filterAcceptsRow` (lines 178–192):
given the running `itemsBefore`, returns the updated `itemsBefore` together
with `maxItemsInCategory` for category `i`. -/
def distStep (L cc : Nat) (sizes : List Nat) (i itemsBefore : Nat) : Nat × Int :=
  let itemsInCategory := sizes.getD i 0
  let availableSpace : Int := (L : Int) - (itemsBefore : Int) - (ceilDivNat L cc : Int)
  let m : Int := max 1 (min availableSpace ((ceilDivNat L (i + 2) : Nat) : Int))
  (itemsBefore + min itemsInCategory m.toNat, m)

/-- The loop `for (int i = 0; i <= sourceParent.row(); ++i)` of
`filterAcceptsRow`: state after processing categories `0..i`. -/
def distLoop (L cc : Nat) (sizes : List Nat) : Nat → Nat × Int
  | 0 => distStep L cc sizes 0 0
  | i + 1 => distStep L cc sizes (i + 1) (distLoop L cc sizes i).1

/-- Embeds `CategoryDistributionProxyModel::filterAcceptsRow`. `limit` is `m_limit`,
`sizes` the per-category row counts of the source model (so
`sizes.length = sourceModel()->rowCount()`), `sourceParent` is `none` for an
invalid parent (top-level rows) and `some p` for a row inside category `p`. -/
def distFilterAcceptsRow (limit : Int) (sizes : List Nat)
    (sourceParent : Option Nat) (sourceRow : Nat) : Bool :=
  if limit ≤ 0 then true
  else
    match sourceParent with
    | none => true
    | some p =>
      let categoryCount := sizes.length
      let maxItemsInCategory : Int :=
        if 1 < categoryCount then (distLoop limit.toNat categoryCount sizes p).2
        else limit
      decide ((sourceRow : Int) < maxItemsInCategory)

/-- Number of visible rows of category `c` under the budget filter. -/
def visibleCountAt (limit : Int) (sizes : List Nat) (c : Nat) : Nat :=
  (List.range (sizes.getD c 0)).countP (fun r => distFilterAcceptsRow limit sizes (some c) r)

/-- Visible rows per category, as a list over all categories. -/
def visibleCounts (limit : Int) (sizes : List Nat) : List Nat :=
  (List.range sizes.length).map (visibleCountAt limit sizes)

/-- Total number of visible match rows across all categories. -/
def totalVisible (limit : Int) (sizes : List Nat) : Nat :=
  (visibleCounts limit sizes).sum

/-! #### Specification-side budget formula

`specStep`/`specLoop` transcribe the spec's arithmetic literally
(mathematical ceilings over ℚ, no single-category bypass), to be compared
with the code's `distLoop`. -/

/-- The budget arithmetic exactly as the specification states it:
`availableSpace = L - itemsBefore - ⌈L / categoryCount⌉`,
`maxItemsInCategory = max (1, min (availableSpace, ⌈L / (i + 2)⌉))`,
`itemsBefore += min (actual items, maxItemsInCategory)`. -/
def specStep (L cc : Nat) (itemsBefore : Int) (i : Nat) (items : Int) : Int × Int :=
  let availableSpace : Int := (L : Int) - itemsBefore - ⌈(L : ℚ) / (cc : ℚ)⌉
  let maxItems : Int := max 1 (min availableSpace ⌈(L : ℚ) / ((i : ℚ) + 2)⌉)
  (itemsBefore + min items maxItems, maxItems)

/-- The spec's iteration over categories `0..i` (top-to-bottom, running
`itemsBefore`), applied to every category count including 1. -/
def specLoop (L : Nat) (sizes : List Nat) : Nat → Int × Int
  | 0 => specStep L sizes.length 0 0 (sizes.getD 0 0 : Nat)
  | i + 1 => specStep L sizes.length (specLoop L sizes i).1 (i + 1) (sizes.getD (i + 1) 0 : Nat)

/-- Visibility as the spec's formula dictates: row `sourceRow` of category
`catIdx` is visible iff `sourceRow < maxItemsInCategory`. -/
def specVisible (L : Nat) (sizes : List Nat) (catIdx sourceRow : Nat) : Prop :=
  (sourceRow : Int) < (specLoop L sizes catIdx).2

instance (L : Nat) (sizes : List Nat) (c r : Nat) : Decidable (specVisible L sizes c r) := by
  unfold specVisible; infer_instance

/-! #### Bridge: mathematical ceiling vs integer ceiling division -/

/-- For positive divisors, the ceiling of the rational quotient agrees with
the `Nat` ceiling division `(a + b - 1) / b`. -/
theorem ceil_ratCast_div (a b : Nat) (hb : 0 < b) :
    ⌈(a : ℚ) / (b : ℚ)⌉ = (ceilDivNat a b : Int) := by
  have hbq : (0 : ℚ) < (b : ℚ) := by exact_mod_cast hb
  have hmod := Nat.div_add_mod (a + b - 1) b
  have hlt : (a + b - 1) % b < b := Nat.mod_lt _ hb
  set q := (a + b - 1) / b with hq
  have h1 : a ≤ q * b := by
    rw [Nat.mul_comm]
    generalize hbt : b * q = t at hmod
    omega
  have h2' : q * b + 1 ≤ a + b := by
    rw [Nat.mul_comm]
    generalize hbt : b * q = t at hmod
    omega
  refine le_antisymm ?_ ?_
  · rw [Int.ceil_le]
    rw [div_le_iff₀ hbq]
    push_cast [ceilDivNat, ← hq]
    exact_mod_cast h1
  · rw [ceilDivNat, ← hq]
    have hlt2 : (q : Int) - 1 < ⌈(a : ℚ) / (b : ℚ)⌉ := by
      rw [Int.lt_ceil]
      rw [lt_div_iff₀ hbq]
      have hab : (q : ℚ) * b + 1 ≤ (a : ℚ) + b := by exact_mod_cast h2'
      push_cast
      nlinarith
    omega

/-! #### Lemmas about the budget loop -/

theorem ceilDivNat_pos (L cc : Nat) (hL : 0 < L) (hcc : 0 < cc) : 0 < ceilDivNat L cc := by
  unfold ceilDivNat
  rw [Nat.lt_iff_add_one_le, Nat.one_le_div_iff hcc]
  omega

theorem distStep_snd_pos (L cc : Nat) (sizes : List Nat) (i b : Nat) :
    1 ≤ (distStep L cc sizes i b).2 :=
  le_max_left _ _

theorem distLoop_snd_pos (L cc : Nat) (sizes : List Nat) :
    ∀ i, 1 ≤ (distLoop L cc sizes i).2
  | 0 => distStep_snd_pos L cc sizes 0 0
  | i + 1 => distStep_snd_pos L cc sizes (i + 1) (distLoop L cc sizes i).1

theorem distStep_fst_le (L cc : Nat) (sizes : List Nat) (i b : Nat) :
    ((distStep L cc sizes i b).1 : Int)
      ≤ max ((b : Int) + 1) ((L : Int) - (ceilDivNat L cc : Int)) := by
  have hd : (distStep L cc sizes i b).1
      = b + min (sizes.getD i 0)
          (max (1 : Int)
            (min ((L : Int) - (b : Int) - (ceilDivNat L cc : Int))
              ((ceilDivNat L (i + 2) : Nat) : Int))).toNat := rfl
  rw [hd]
  have h1 : 1 ≤ max (1 : Int)
      (min ((L : Int) - (b : Int) - (ceilDivNat L cc : Int)) ((ceilDivNat L (i + 2) : Nat) : Int)) :=
    le_max_left _ _
  have h2 : min ((L : Int) - (b : Int) - (ceilDivNat L cc : Int))
        ((ceilDivNat L (i + 2) : Nat) : Int)
      ≤ (L : Int) - (b : Int) - (ceilDivNat L cc : Int) := min_le_left _ _
  have h3 : min (sizes.getD i 0)
        (max (1 : Int)
          (min ((L : Int) - (b : Int) - (ceilDivNat L cc : Int))
            ((ceilDivNat L (i + 2) : Nat) : Int))).toNat
      ≤ (max (1 : Int)
          (min ((L : Int) - (b : Int) - (ceilDivNat L cc : Int))
            ((ceilDivNat L (i + 2) : Nat) : Int))).toNat := Nat.min_le_right _ _
  omega

theorem distLoop_fst_le (L cc : Nat) (sizes : List Nat) :
    ∀ i, ((distLoop L cc sizes i).1 : Int)
      ≤ max ((L : Int) - (ceilDivNat L cc : Int)) 0 + i + 1
  | 0 => by
    have h := distStep_fst_le L cc sizes 0 0
    unfold distLoop
    omega
  | i + 1 => by
    have h := distStep_fst_le L cc sizes (i + 1) (distLoop L cc sizes i).1
    have ih := distLoop_fst_le L cc sizes i
    unfold distLoop
    omega

theorem countP_range_lt_int (m : Int) :
    ∀ n : Nat, (List.range n).countP (fun r : Nat => decide ((r : Int) < m)) = min n m.toNat
  | 0 => by simp
  | n + 1 => by
    rw [List.range_succ, List.countP_append, countP_range_lt_int m n]
    by_cases h : (n : Int) < m
    · simp [List.countP_cons, h]
      omega
    · simp [List.countP_cons, h]
      omega

theorem visibleCountAt_eq (limit : Int) (sizes : List Nat)
    (hlim : 0 < limit) (hcc : 1 < sizes.length) :
    ∀ c, visibleCountAt limit sizes c
      = min (sizes.getD c 0) ((distLoop limit.toNat sizes.length sizes c).2).toNat := by
  intro c
  unfold visibleCountAt
  have hfun : (fun r => distFilterAcceptsRow limit sizes (some c) r)
      = fun r : Nat => decide ((r : Int) < (distLoop limit.toNat sizes.length sizes c).2) := by
    have hlim' : ¬ limit ≤ 0 := by omega
    funext r
    simp [distFilterAcceptsRow, hlim', hcc]
  rw [hfun, countP_range_lt_int]

theorem visibleCountAt_one_cat (limit : Int) (sizes : List Nat)
    (hlim : 0 < limit) (hcc : ¬ 1 < sizes.length) :
    ∀ c, visibleCountAt limit sizes c = min (sizes.getD c 0) limit.toNat := by
  intro c
  unfold visibleCountAt
  have hfun : (fun r => distFilterAcceptsRow limit sizes (some c) r)
      = fun r : Nat => decide ((r : Int) < limit) := by
    have hlim' : ¬ limit ≤ 0 := by omega
    funext r
    simp [distFilterAcceptsRow, hlim', hcc]
  rw [hfun, countP_range_lt_int]

theorem distLoop_fst_eq_sum (L cc : Nat) (sizes : List Nat) :
    ∀ i, (distLoop L cc sizes i).1
      = ((List.range (i + 1)).map
          (fun c => min (sizes.getD c 0) ((distLoop L cc sizes c).2).toNat)).sum
  | 0 => by
    simp [distLoop, distStep, List.range_succ]
  | i + 1 => by
    rw [List.range_succ, List.map_append, List.sum_append,
      ← distLoop_fst_eq_sum L cc sizes i]
    simp [distLoop, distStep]

/-! #### Spec formula vs code loop -/

theorem specStep_eq_distStep (L cc : Nat) (sizes : List Nat) (hcc : 0 < cc) (i b : Nat) :
    specStep L cc (b : Int) i ((sizes.getD i 0 : Nat) : Int)
      = (((distStep L cc sizes i b).1 : Int), (distStep L cc sizes i b).2) := by
  simp only [specStep, distStep]
  rw [ceil_ratCast_div L cc hcc]
  have h2 : ((i : ℚ) + 2) = ((i + 2 : Nat) : ℚ) := by push_cast; ring
  rw [h2, ceil_ratCast_div L (i + 2) (by omega)]
  have hm : 1 ≤ max (1 : Int)
      (min ((L : Int) - (b : Int) - (ceilDivNat L cc : Int))
        ((ceilDivNat L (i + 2) : Nat) : Int)) := le_max_left _ _
  simp only [Prod.mk.injEq]
  refine ⟨by omega, by trivial⟩

theorem specLoop_eq_distLoop (L : Nat) (sizes : List Nat) (hcc : 0 < sizes.length) :
    ∀ i, specLoop L sizes i
      = (((distLoop L sizes.length sizes i).1 : Int), (distLoop L sizes.length sizes i).2)
  | 0 => specStep_eq_distStep L sizes.length sizes hcc 0 0
  | i + 1 => by
    have ih := specLoop_eq_distLoop L sizes hcc i
    show specStep L sizes.length (specLoop L sizes i).1 (i + 1) _ = _
    rw [ih]
    exact specStep_eq_distStep L sizes.length sizes hcc (i + 1) (distLoop L sizes.length sizes i).1

/-! ### Claim theorems about the Category Budget Stage -/

/-- C1 (counterexample): the claim's budget formula disagrees with the code when
there is exactly one category. With `limit = 5` and a single category of 2
matches the code accepts row 1 (`maxItemsInCategory = m_limit = 5`), while the
spec's arithmetic at position 0 with `categoryCount = 1` yields
`maxItemsInCategory = 1`, rejecting row 1. -/
theorem c1_counterexample :
    distFilterAcceptsRow 5 [2] (some 0) 1 = true ∧ ¬ specVisible 5 [2] 0 1 := by
  constructor
  · decide
  · unfold specVisible
    rw [specLoop_eq_distLoop 5 [2] (by decide) 0]
    decide

/-- C1 (amended): for every limit `L > 0` and **at least two** sibling
categories, the Category Budget Stage decides visibility by the exact
arithmetic of the spec: iterating categories top-to-bottom with a running
`itemsBefore` count, `availableSpace = L - itemsBefore - ⌈L/categoryCount⌉`,
`maxItemsInCategory = max 1 (min availableSpace ⌈L/(i+2)⌉)`, `itemsBefore`
increasing by `min (actual items) maxItemsInCategory`; a match row at
`sourceRow` is visible iff `sourceRow < maxItemsInCategory`. -/
theorem c1_budget_formula (limit : Int) (sizes : List Nat) (p row : Nat)
    (hlim : 0 < limit) (hcc : 1 < sizes.length) :
    distFilterAcceptsRow limit sizes (some p) row = true
      ↔ specVisible limit.toNat sizes p row := by
  unfold specVisible
  rw [specLoop_eq_distLoop limit.toNat sizes (by omega) p]
  have hlim' : ¬ limit ≤ 0 := by omega
  simp [distFilterAcceptsRow, hlim', hcc]

theorem c1_budget_formula_witness :
    (0 : Int) < 5 ∧ 1 < [10, 10, 10].length
      ∧ (distFilterAcceptsRow 5 [10, 10, 10] (some 0) 2 = true
          ↔ specVisible (5 : Int).toNat [10, 10, 10] 0 2) :=
  ⟨by decide, by decide, c1_budget_formula 5 [10, 10, 10] 0 2 (by decide) (by decide)⟩

/-- C4: with `limit = 5` and three categories of 10 matches each, the budget
stage makes exactly 3 matches visible in the first category, 1 in the second
and 1 in the third. -/
theorem c4_scenario_limit5 : visibleCounts 5 [10, 10, 10] = [3, 1, 1] := by decide

/-- C5: for every limit `L > 0` and every list of category sizes, every
non-empty category keeps at least one visible match, and the total number of
visible matches never exceeds `L + (number of categories - 1)`. -/
theorem c5_budget_invariant (limit : Int) (sizes : List Nat) (hlim : 0 < limit) :
    (∀ c, 0 < sizes.getD c 0 → 0 < visibleCountAt limit sizes c)
      ∧ totalVisible limit sizes ≤ limit.toNat + sizes.length - 1 := by
  by_cases hcc : 1 < sizes.length
  · constructor
    · intro c hc
      rw [visibleCountAt_eq limit sizes hlim hcc c]
      have hp := distLoop_snd_pos limit.toNat sizes.length sizes c
      omega
    · have hsum : totalVisible limit sizes
          = (distLoop limit.toNat sizes.length sizes (sizes.length - 1)).1 := by
        unfold totalVisible visibleCounts
        rw [funext (visibleCountAt_eq limit sizes hlim hcc)]
        rw [distLoop_fst_eq_sum limit.toNat sizes.length sizes (sizes.length - 1),
          Nat.sub_add_cancel (by omega : 1 ≤ sizes.length)]
      have hb := distLoop_fst_le limit.toNat sizes.length sizes (sizes.length - 1)
      have hC := ceilDivNat_pos limit.toNat sizes.length (by omega) (by omega)
      rw [hsum]
      omega
  · constructor
    · intro c hc
      rw [visibleCountAt_one_cat limit sizes hlim hcc c]
      omega
    · cases sizes with
      | nil => simp [totalVisible, visibleCounts]
      | cons s rest =>
        have hr : rest = [] := by
          cases rest with
          | nil => rfl
          | cons a b =>
            exfalso
            apply hcc
            simp only [List.length_cons]
            omega
        subst hr
        have ht : totalVisible limit [s] = visibleCountAt limit [s] 0 := by
          simp [totalVisible, visibleCounts, List.range_succ]
        rw [ht, visibleCountAt_one_cat limit [s] hlim hcc 0]
        simp only [List.getD, List.length_cons, List.length_nil]
        omega

theorem c5_budget_invariant_witness :
    (0 : Int) < 5
      ∧ 0 < visibleCountAt 5 [10, 10, 10] 0
      ∧ totalVisible 5 [10, 10, 10] ≤ (5 : Int).toNat + [10, 10, 10].length - 1 :=
  ⟨by decide, (c5_budget_invariant 5 [10, 10, 10] (by decide)).1 0 (by decide),
    (c5_budget_invariant 5 [10, 10, 10] (by decide)).2⟩

/-- C10: with a single category the budget stage bypasses the distribution
formula: row `r` is visible iff `r < L`, so exactly the first `min n L`
matches are shown, whereas the spec's general formula at position 0 with
`categoryCount = 1` would yield `maxItemsInCategory = 1`. -/
theorem c10_single_category (L n r : Nat) (hL : 0 < L) :
    (distFilterAcceptsRow (L : Int) [n] (some 0) r = decide (r < L))
      ∧ visibleCountAt (L : Int) [n] 0 = min n L
      ∧ (specLoop L [n] 0).2 = 1 := by
  have hlim : (0 : Int) < (L : Int) := by exact_mod_cast hL
  have hlim' : ¬ (L : Int) ≤ 0 := by omega
  have hcc : ¬ 1 < [n].length := by simp
  refine ⟨?_, ?_, ?_⟩
  · simp [distFilterAcceptsRow, hlim', Nat.cast_lt]
  · rw [visibleCountAt_one_cat (L : Int) [n] hlim hcc 0]
    simp [List.getD]
  · rw [show (specLoop L [n] 0).2
        = (((specLoop L [n] 0).1, (specLoop L [n] 0).2)).2 from rfl]
    rw [show ((specLoop L [n] 0).1, (specLoop L [n] 0).2)
        = specLoop L [n] 0 from rfl]
    rw [specLoop_eq_distLoop L [n] (by simp) 0]
    show (distStep L 1 [n] 0 0).2 = 1
    simp only [distStep]
    have h1 : ceilDivNat L 1 = L := by unfold ceilDivNat; omega
    rw [h1]
    have h2 : (0 : Int) ≤ (ceilDivNat L 2 : Int) := by positivity
    omega

theorem c10_single_category_witness :
    0 < 7
      ∧ (distFilterAcceptsRow ((7 : Nat) : Int) [10] (some 0) 7 = decide (7 < 7))
      ∧ visibleCountAt ((7 : Nat) : Int) [10] 0 = min 10 7
      ∧ (specLoop 7 [10] 0).2 = 1 := by
  have h := c10_single_category 7 10 7 (by decide)
  exact ⟨by decide, h.1, h.2.1, h.2.2⟩

/-! ### Relevance/Type Sort Stage (`SortProxyModel`) -/

/-- Lower-cased character list of a string; models `Qt::CaseInsensitive`
comparison by case folding. -/
def lowerChars (s : String) : List Char := s.data.map Char.toLower

/-- Whether the first list is a prefix of the second. -/
def isPrefixList : List Char → List Char → Bool
  | [], _ => true
  | _ :: _, [] => false
  | a :: as, b :: bs => a == b && isPrefixList as bs

/-- Whether `needle` occurs as a contiguous substring of the second list. -/
def isSubstrList (needle : List Char) : List Char → Bool
  | [] => isPrefixList needle []
  | b :: bs => isPrefixList needle (b :: bs) || isSubstrList needle bs

/-- Models `display.contains(word, Qt::CaseInsensitive)`. -/
def containsCI (display word : String) : Bool :=
  isSubstrList (lowerChars word) (lowerChars display)

/-- One match row: its display text and its `TypeRole`/`RelevanceRole` data. -/
structure MatchData where
  display : String
  type : Int
  relevance : ℚ

/-- One top-level category row: its child matches and the type/relevance its
model index reports (the source tree defines these as the maxima over the
contained matches; that producer, `RunnerResultsModel`, is outside this file's
sources, so they are plain fields here). -/
structure CategoryData where
  items : List MatchData
  type : Int
  relevance : ℚ

/-- Embeds `SortProxyModel::categoryHasMatchWithAllWords` (lines 52–71): true
iff some child match's display text contains every word of `m_words`,
case-insensitively. -/
def categoryHasMatchWithAllWords (words : List String) (cat : CategoryData) : Bool :=
  cat.items.any fun m => words.all fun word => containsCI m.display word

/-- Qt's `qFuzzyCompare` for `qreal`, over exact rationals:
`qAbs(p1 - p2) <= 0.000000000001 * qMin(qAbs(p1), qAbs(p2))`. -/
def qFuzzyCompare (p1 p2 : ℚ) : Bool :=
  decide (|p1 - p2| ≤ (1 / 1000000000000) * min |p1| |p2|)

/-- A source index as seen by `lessThan`: a top-level category row (invalid
parent) or a child match row (valid parent). -/
inductive SourceIdx where
  | top (cat : CategoryData)
  | child (m : MatchData)

/-- Data of `ResultsModel::TypeRole` at an index. -/
def idxType : SourceIdx → Int
  | .top c => c.type
  | .child m => m.type

/-- Data of `ResultsModel::RelevanceRole` at an index. -/
def idxRelevance : SourceIdx → ℚ
  | .top c => c.relevance
  | .child m => m.relevance

/-- Lines 86–100 of `SortProxyModel::lessThan`: the type, then fuzzy
relevance, then default comparison. `base` is the result of
`QSortFilterProxyModel::lessThan(sourceA, sourceB)` (the stable default
tie-break). -/
def typeRelevanceLessThan (base : Bool) (typeA typeB : Int) (relevanceA relevanceB : ℚ) : Bool :=
  if typeA ≠ typeB then decide (typeA < typeB)
  else if !(qFuzzyCompare relevanceA relevanceB) then decide (relevanceA < relevanceB)
  else base

/-- Embeds `SortProxyModel::lessThan` (lines 74–101): the query-word boost for
pairs of top-level categories, then the shared type/relevance comparison. -/
def lessThan (words : List String) (base : Bool) (a b : SourceIdx) : Bool :=
  match a, b with
  | .top catA, .top catB =>
    let hasMatchWithAllWordsA := categoryHasMatchWithAllWords words catA
    let hasMatchWithAllWordsB := categoryHasMatchWithAllWords words catB
    if hasMatchWithAllWordsA ≠ hasMatchWithAllWordsB then
      !hasMatchWithAllWordsA && hasMatchWithAllWordsB
    else
      typeRelevanceLessThan base (idxType a) (idxType b) (idxRelevance a) (idxRelevance b)
  | _, _ =>
    typeRelevanceLessThan base (idxType a) (idxType b) (idxRelevance a) (idxRelevance b)

/-- Accumulator-style split on a separator character, dropping empty parts;
models `QString::split(sep, Qt::SkipEmptyParts)`. -/
def splitAux (sep : Char) : List Char → List Char → List (List Char)
  | [], acc => if acc.isEmpty then [] else [acc.reverse]
  | c :: rest, acc =>
    if c = sep then
      if acc.isEmpty then splitAux sep rest []
      else acc.reverse :: splitAux sep rest []
    else splitAux sep rest (c :: acc)

/-- The word list computed by `SortProxyModel::setQueryString`:
`queryString.split(QLatin1Char(' '), Qt::SkipEmptyParts)`. -/
def splitWords (queryString : String) : List (List Char) :=
  splitAux ' ' queryString.data []

/-- The sort stage's stored word state (`m_words`). -/
structure SortState where
  words : List (List Char)

/-- Embeds `SortProxyModel::setQueryString` (lines 43–50): recomputes the word
list and, only if it differs from `m_words`, stores it and calls
`invalidate()`. The second component records whether `invalidate()` ran. -/
def setQueryString (st : SortState) (queryString : String) : SortState × Bool :=
  let words := splitWords queryString
  if words ≠ st.words then ({ words := words }, true) else (st, false)

/-- Modelled from the spec for comparison with the code: tokenization on
whitespace characters (any whitespace, not just the space character),
skipping empty parts. -/
def splitWhitespaceAux : List Char → List Char → List (List Char)
  | [], acc => if acc.isEmpty then [] else [acc.reverse]
  | c :: rest, acc =>
    if c.isWhitespace then
      if acc.isEmpty then splitWhitespaceAux rest []
      else acc.reverse :: splitWhitespaceAux rest []
    else splitWhitespaceAux rest (c :: acc)

/-- Modelled from the spec: the query "tokenized on whitespace into an ordered
sequence of non-empty words". -/
def whitespaceTokenize (queryString : String) : List (List Char) :=
  splitWhitespaceAux queryString.data []

theorem splitAux_mem_ne_nil (sep : Char) :
    ∀ (s acc : List Char), ∀ w ∈ splitAux sep s acc, w ≠ []
  | [], acc => by
    intro w hw
    unfold splitAux at hw
    by_cases h : acc.isEmpty
    · rw [if_pos h] at hw
      simp at hw
    · rw [if_neg h] at hw
      simp only [List.mem_singleton] at hw
      subst hw
      simp only [ne_eq, List.reverse_eq_nil_iff]
      intro hc
      subst hc
      simp at h
  | c :: rest, acc => by
    intro w hw
    unfold splitAux at hw
    by_cases h1 : c = sep
    · rw [if_pos h1] at hw
      by_cases h2 : acc.isEmpty
      · rw [if_pos h2] at hw
        exact splitAux_mem_ne_nil sep rest [] w hw
      · rw [if_neg h2] at hw
        rcases List.mem_cons.mp hw with h | h
        · subst h
          simp only [ne_eq, List.reverse_eq_nil_iff]
          intro hc
          subst hc
          simp at h2
        · exact splitAux_mem_ne_nil sep rest [] w h
    · rw [if_neg h1] at hw
      exact splitAux_mem_ne_nil sep rest (c :: acc) w hw

/-! ### Claim theorems about the Sort Stage -/

/-- C2: after the category word-boost step, `lessThan` behaves exactly as
claimed: for differing types the result is `typeA < typeB`; for equal types
and not-fuzzy-equal relevances it is `relevanceA < relevanceB`; for
fuzzy-equal relevances it is the default comparator's result. For pairs of
match rows `lessThan` is exactly this type/relevance comparison. -/
theorem c2_sort_type_relevance (base : Bool) (tA tB : Int) (rA rB : ℚ) :
    (tA ≠ tB → typeRelevanceLessThan base tA tB rA rB = decide (tA < tB))
      ∧ (tA = tB → qFuzzyCompare rA rB = false →
          typeRelevanceLessThan base tA tB rA rB = decide (rA < rB))
      ∧ (tA = tB → qFuzzyCompare rA rB = true →
          typeRelevanceLessThan base tA tB rA rB = base)
      ∧ (∀ words : List String, ∀ ma mb : MatchData,
          lessThan words base (SourceIdx.child ma) (SourceIdx.child mb)
            = typeRelevanceLessThan base ma.type mb.type ma.relevance mb.relevance) := by
  refine ⟨?_, ?_, ?_, ?_⟩
  · intro h
    unfold typeRelevanceLessThan
    rw [if_pos h]
  · intro h hf
    unfold typeRelevanceLessThan
    rw [if_neg (fun hc => hc h), if_pos (by rw [hf]; rfl)]
  · intro h hf
    unfold typeRelevanceLessThan
    rw [if_neg (fun hc => hc h), if_neg (by rw [hf]; simp)]
  · intro words ma mb
    rfl

/-- C3: for two top-level categories, `lessThan` evaluates the
has-all-query-words predicate on both; the predicate holds iff some match's
display text contains every query word case-insensitively. If exactly one of
the two satisfies it, that category ranks above the other regardless of types
and relevances; if both or neither do, the comparison falls through to the
type/relevance steps. -/
theorem c3_category_word_boost (words : List String) (base : Bool) (catA catB : CategoryData) :
    (categoryHasMatchWithAllWords words catA = true
        ↔ ∃ m ∈ catA.items, ∀ w ∈ words, containsCI m.display w = true)
      ∧ (categoryHasMatchWithAllWords words catA ≠ categoryHasMatchWithAllWords words catB →
          lessThan words base (SourceIdx.top catA) (SourceIdx.top catB)
            = (!(categoryHasMatchWithAllWords words catA)
                && categoryHasMatchWithAllWords words catB))
      ∧ (categoryHasMatchWithAllWords words catA = true →
          categoryHasMatchWithAllWords words catB = false →
          lessThan words base (SourceIdx.top catB) (SourceIdx.top catA) = true
            ∧ lessThan words base (SourceIdx.top catA) (SourceIdx.top catB) = false)
      ∧ (categoryHasMatchWithAllWords words catA = categoryHasMatchWithAllWords words catB →
          lessThan words base (SourceIdx.top catA) (SourceIdx.top catB)
            = typeRelevanceLessThan base catA.type catB.type catA.relevance catB.relevance) := by
  refine ⟨?_, ?_, ?_, ?_⟩
  · unfold categoryHasMatchWithAllWords
    simp [List.any_eq_true, List.all_eq_true]
  · intro h
    show (if categoryHasMatchWithAllWords words catA ≠ categoryHasMatchWithAllWords words catB
        then !(categoryHasMatchWithAllWords words catA) && categoryHasMatchWithAllWords words catB
        else typeRelevanceLessThan base (idxType (SourceIdx.top catA))
          (idxType (SourceIdx.top catB)) (idxRelevance (SourceIdx.top catA))
          (idxRelevance (SourceIdx.top catB))) = _
    rw [if_pos h]
  · intro hA hB
    constructor
    · show (if categoryHasMatchWithAllWords words catB ≠ categoryHasMatchWithAllWords words catA
          then !(categoryHasMatchWithAllWords words catB) && categoryHasMatchWithAllWords words catA
          else typeRelevanceLessThan base (idxType (SourceIdx.top catB))
            (idxType (SourceIdx.top catA)) (idxRelevance (SourceIdx.top catB))
            (idxRelevance (SourceIdx.top catA))) = true
      rw [hA, hB]
      rfl
    · show (if categoryHasMatchWithAllWords words catA ≠ categoryHasMatchWithAllWords words catB
          then !(categoryHasMatchWithAllWords words catA) && categoryHasMatchWithAllWords words catB
          else typeRelevanceLessThan base (idxType (SourceIdx.top catA))
            (idxType (SourceIdx.top catB)) (idxRelevance (SourceIdx.top catA))
            (idxRelevance (SourceIdx.top catB))) = false
      rw [hA, hB]
      rfl
  · intro h
    show (if categoryHasMatchWithAllWords words catA ≠ categoryHasMatchWithAllWords words catB
        then !(categoryHasMatchWithAllWords words catA) && categoryHasMatchWithAllWords words catB
        else typeRelevanceLessThan base (idxType (SourceIdx.top catA))
          (idxType (SourceIdx.top catB)) (idxRelevance (SourceIdx.top catA))
          (idxRelevance (SourceIdx.top catB))) = _
    rw [if_neg (fun hc => hc h)]
    rfl

/-- C8 (counterexample): the claim fails on the code in two ways. Changing the
query string from "a" to "a " leaves the word list unchanged, so
`setQueryString` does not invalidate even though the query string changed; and
the code splits on the space character only, so the tab-separated query is one
word where the spec's whitespace tokenization yields two. -/
theorem c8_counterexample :
    ((setQueryString ⟨splitWords "a"⟩ "a ").2 = false ∧ "a" ≠ "a ")
      ∧ splitWords "a\tb" ≠ whitespaceTokenize "a\tb" := by
  refine ⟨⟨?_, ?_⟩, ?_⟩
  · decide
  · decide
  · decide

/-- C8 (amended): the query is split on space characters into an ordered list
of non-empty words, the stored word list always equals that tokenization after
the call, and a query-string change invalidates the sort order iff the
resulting word list differs from the stored one. -/
theorem c8_tokenize_invalidate (st : SortState) (queryString : String) :
    (∀ w ∈ splitWords queryString, w ≠ [])
      ∧ (setQueryString st queryString).1.words = splitWords queryString
      ∧ ((setQueryString st queryString).2 = true ↔ splitWords queryString ≠ st.words) := by
  refine ⟨splitAux_mem_ne_nil ' ' queryString.data [], ?_, ?_⟩
  · unfold setQueryString
    by_cases h : splitWords queryString ≠ st.words
    · rw [if_pos h]
    · rw [if_neg h]
      push_neg at h
      exact h.symm
  · unfold setQueryString
    by_cases h : splitWords queryString ≠ st.words
    · rw [if_pos h]
      simp [h]
    · rw [if_neg h]
      simp [h]

/-! ### Duplicate Annotation Stage (`DuplicateDetectorProxyModel::data`) -/

/-- The scan loop of `DuplicateDetectorProxyModel::data` (lines 272–285):
walks all rows counting those whose display equals `display`, returning `true`
as soon as the count reaches 2 and `false` if the scan ends first. -/
def dupScan (display : String) : List String → Nat → Bool
  | [], _ => false
  | s :: rest, duplicatesCount =>
    if s = display then
      if duplicatesCount + 1 == 2 then true
      else dupScan display rest (duplicatesCount + 1)
    else dupScan display rest duplicatesCount

/-- Embeds `data(index, DuplicateRole)` for row `i` of the final list `rows`
(each row represented by its display text). -/
def isDuplicate (rows : List String) (i : Nat) : Bool :=
  dupScan (rows.getD i "") rows 0

theorem dupScan_eq (display : String) :
    ∀ (l : List String) (c : Nat), c ≤ 1 →
      dupScan display l c = decide (2 ≤ c + l.countP (fun s => decide (s = display)))
  | [], c => by
    intro hc
    unfold dupScan
    simp only [List.countP_nil, Nat.add_zero]
    symm
    rw [decide_eq_false_iff_not]
    omega
  | s :: rest, c => by
    intro hc
    unfold dupScan
    rw [List.countP_cons]
    by_cases h : s = display
    · rw [if_pos h]
      have hs : (decide (s = display) : Bool) = true := by rw [decide_eq_true_eq]; exact h
      rw [hs]
      interval_cases c
      · rw [if_neg (by decide)]
        rw [dupScan_eq display rest 1 (by omega)]
        rw [decide_eq_decide, if_pos rfl]
        omega
      · rw [if_pos (by decide)]
        symm
        rw [decide_eq_true_eq, if_pos rfl]
        omega
    · rw [if_neg h]
      have hs : (decide (s = display) : Bool) = false := by
        rw [decide_eq_false_iff_not]; exact h
      rw [hs]
      rw [dupScan_eq display rest c hc]
      rw [decide_eq_decide, if_neg (by decide : ¬ (false = true))]
      omega

/-- C6: the duplicate flag of a row is true iff at least two rows of the final
list carry exactly its display text (case-sensitive string equality). Hence
every display text occurring `k ≥ 2` times reports true on all `k` rows, and a
text occurring exactly once reports false. -/
theorem c6_duplicate_flag (rows : List String) (i : Nat) (hi : i < rows.length) :
    isDuplicate rows i = true
      ↔ 2 ≤ rows.countP (fun s => decide (s = rows.getD i "")) := by
  unfold isDuplicate
  rw [dupScan_eq (rows.getD i "") rows 0 (by omega)]
  simp

theorem c6_duplicate_flag_witness :
    0 < ["Calculator", "Files", "Calculator"].length
      ∧ (isDuplicate ["Calculator", "Files", "Calculator"] 0 = true
          ↔ 2 ≤ ["Calculator", "Files", "Calculator"].countP
              (fun s => decide (s = ["Calculator", "Files", "Calculator"].getD 0 ""))) :=
  ⟨by decide, c6_duplicate_flag ["Calculator", "Files", "Calculator"] 0 (by decide)⟩

/-! ### Flattening and Root-Level Filter Stage (`HideRootLevelProxyModel`) -/

/-- A node of the original two-level results tree: category `c`, or the match
at row `i` of category `c`. -/
inductive TreeNode where
  | cat (c : Nat)
  | item (c : Nat) (i : Nat)
deriving DecidableEq

/-- Parent index of a tree node; `none` models an invalid
`QModelIndex::parent()`. Categories sit at the root, matches under their
category. -/
def treeParent : TreeNode → Option TreeNode
  | .cat _ => none
  | .item c _ => some (.cat c)

/-- Models `KDescendantsProxyModel`: a depth-first flattening that keeps every
node, each category followed by its matches, preserving order. -/
def flattenTree (sizes : List Nat) : List TreeNode :=
  (List.range sizes.length).flatMap
    (fun c => TreeNode.cat c :: (List.range (sizes.getD c 0)).map (TreeNode.item c))

/-- Embeds `HideRootLevelProxyModel::filterAcceptsRow` (lines 238–243): a row
is kept iff its index, mapped back to the tree model, has a valid parent. -/
def hideRootAccepts (n : TreeNode) : Bool :=
  (treeParent n).isSome

/-- The final root-filtered list delivered by the hide-root stage. -/
def hideRootFiltered (sizes : List Nat) : List TreeNode :=
  (flattenTree sizes).filter hideRootAccepts

/-- C7: a flattened row survives the Root-Level Filter Stage iff its node in
the original tree has a valid parent; consequently no top-level (category)
node ever appears in the final list. -/
theorem c7_hide_root (sizes : List Nat) (n : TreeNode) (hn : n ∈ flattenTree sizes) :
    (n ∈ hideRootFiltered sizes ↔ (treeParent n).isSome = true)
      ∧ (n ∈ hideRootFiltered sizes → ∀ c, n ≠ TreeNode.cat c) := by
  constructor
  · unfold hideRootFiltered
    rw [List.mem_filter]
    unfold hideRootAccepts
    simp [hn]
  · intro h c hc
    subst hc
    unfold hideRootFiltered at h
    have h2 := (List.mem_filter.mp h).2
    simp [hideRootAccepts, treeParent] at h2

theorem c7_hide_root_witness :
    TreeNode.item 0 0 ∈ flattenTree [1]
      ∧ (TreeNode.item 0 0 ∈ hideRootFiltered [1]
          ↔ (treeParent (TreeNode.item 0 0)).isSome = true) :=
  ⟨by decide, (c7_hide_root [1] (TreeNode.item 0 0) (by decide)).1⟩

/-! ### Row-indexed operations of `ResultsModel` -/

/-- Models `KModelIndexProxyMapper::mapLeftToRight` from a final-list row to
the underlying results model: row `r` maps to the `r`-th underlying match when
it exists and to an invalid index (`none`) otherwise — in particular any row
at or beyond the list length is unmapped. -/
def mapToResults {α : Type} (results : List α) (row : Nat) : Option α :=
  results[row]?

/-- Embeds `ResultsModel::run` (lines 431–439): false when the index does not
map to a valid underlying index, otherwise the underlying run result. -/
def runRow {α : Type} (results : List α) (runMatch : α → Bool) (row : Nat) : Bool :=
  match mapToResults results row with
  | none => false
  | some m => runMatch m

/-- Embeds `ResultsModel::runAction` (lines 441–449). -/
def runActionRow {α : Type} (results : List α) (runActionMatch : α → Nat → Bool)
    (row actionNumber : Nat) : Bool :=
  match mapToResults results row with
  | none => false
  | some m => runActionMatch m actionNumber

/-- Embeds `ResultsModel::getMimeData` (lines 451–459): `none` models the C++
`nullptr` result for unmapped rows. -/
def getMimeDataRow {α β : Type} (results : List α) (mimeData : α → β) (row : Nat) : Option β :=
  match mapToResults results row with
  | none => none
  | some m => some (mimeData m)

/-- C9: whenever a row does not map back to a valid underlying match, `run`
and `runAction` return false and `getMimeData` returns nothing, whatever the
underlying operations would do; and any row at or beyond the current list
length is unmapped. All three embeddings are total functions, so no exception
is possible. -/
theorem c9_invalid_row {α β : Type} (results : List α) (runMatch : α → Bool)
    (runActionMatch : α → Nat → Bool) (mimeData : α → β) (row actionNumber : Nat)
    (hrow : mapToResults results row = none) :
    runRow results runMatch row = false
      ∧ runActionRow results runActionMatch row actionNumber = false
      ∧ getMimeDataRow results mimeData row = none
      ∧ ∀ r, results.length ≤ r → mapToResults results r = none := by
  refine ⟨?_, ?_, ?_, ?_⟩
  · unfold runRow
    rw [hrow]
  · unfold runActionRow
    rw [hrow]
  · unfold getMimeDataRow
    rw [hrow]
  · intro r hr
    unfold mapToResults
    exact List.getElem?_eq_none hr

theorem c9_invalid_row_witness :
    mapToResults ["a"] 5 = none
      ∧ runRow ["a"] (fun _ => true) 5 = false
      ∧ runActionRow ["a"] (fun _ _ => true) 5 0 = false
      ∧ getMimeDataRow ["a"] (fun s => s) 5 = none := by
  have h := c9_invalid_row ["a"] (fun _ => true) (fun _ _ => true) (fun s => s) 5 0 (by decide)
  exact ⟨by decide, h.1, h.2.1, h.2.2.1⟩

end Milou
